import Mathlib

/-!
Shallow embedding of the `mass-merge` tool (the repository's main script).

The script discovers open pull requests matching an author/title search,
classifies each by an aggregate check-run status, asks the operator for
confirmation, and then approves and squash-merges the candidates one by one
after re-validating author and title.

Network effects are modelled by oracles: a search oracle answering each
page request, a check-fetch oracle answering each (pull request, attempt)
pair, and approve/merge oracles answering each (pull request, attempt)
pair.  Fallible steps return `Except JsError`.  `process.exit` and thrown
exceptions that reach the top-level catch are distinguished in `RunResult`.
-/

deriving instance DecidableEq for Except

namespace MassMerge

/-- An error value thrown by the embedded JavaScript: either a `TypeError`
from dereferencing a `null` regex match, or a host/network error carrying a
status code. -/
inductive JsError where
  | typeError : JsError
  | hostError : Nat → JsError
  deriving DecidableEq

/-- A single check run reported for a commit: its `status` field and its
`conclusion` field (`none` models a JSON `null` conclusion). -/
structure CheckRun where
  status : String
  conclusion : Option String
  deriving DecidableEq

/-- `["success", "neutral", "skipped"].includes(r.conclusion)` from
`getCheckStatus`: a `null` conclusion is never contained in the list. -/
def conclusionOk (r : CheckRun) : Bool :=
  match r.conclusion with
  | some c => ["success", "neutral", "skipped"].contains c
  | none => false

/-- The pure reduction of `getCheckStatus`: the ordered first-match policy
classifying a fetched check-run list into one of five status strings. -/
def getCheckStatus (runs : List CheckRun) : String :=
  if runs.length < 1 then "missing"
  else if runs.all conclusionOk then "success"
  else if runs.any (fun r => r.status == "queued") then "queued"
  else if runs.any (fun r => r.status == "in_progress") then "in_progress"
  else "failed"

/-- `constructQuery`: builds the single search-filter expression from the
owner list, title substring, author and the repository restriction list. -/
def constructQuery (owners : List String) (title author : String)
    (restrictToRepos : List String) : String :=
  let parts : List String :=
    ["is:open", "is:pr", "archived:false", "draft:false", "comments:0",
     "author:" ++ author, "in:title", "\"" ++ title ++ "\""]
  let parts :=
    if restrictToRepos.length == 0 then
      parts ++
        ["(" ++ String.intercalate " OR " (owners.map (fun owner => "org:" ++ owner)) ++ ")"]
    else
      parts ++ restrictToRepos.map (fun repo => "repo:" ++ repo)
  String.intercalate " " parts

/-- ASCII lower-casing of one character, modelling JavaScript
`toLowerCase` on the ASCII range. -/
def lowerChar (c : Char) : Char :=
  if 'A' ≤ c && c ≤ 'Z' then Char.ofNat (c.toNat + 32) else c

/-- `s.toLowerCase()` modelled character-wise. -/
def toLowerS (s : String) : String := String.mk (s.data.map lowerChar)

/-- Helper for `splitComma`: accumulate the current field (reversed). -/
def splitCommaGo : List Char → List Char → List String
  | [], cur => [String.mk cur.reverse]
  | c :: rest, cur =>
    if c == ',' then String.mk cur.reverse :: splitCommaGo rest []
    else splitCommaGo rest (c :: cur)

/-- `s.split(",")`: the comma-separated fields of `s` (the empty string
yields one empty field, as in JavaScript). -/
def splitComma (s : String) : List String := splitCommaGo s.data []

/-- Match a literal character sequence at the start of the input; return
the rest of the input on success. -/
def matchLit : List Char → List Char → Option (List Char)
  | [], s => some s
  | _ :: _, [] => none
  | c :: cs, d :: ds => if c == d then matchLit cs ds else none

/-- Match the regex `\/repos\/([^\/]+)\/([^\/]+)\/issues\/([^\/]+)` of
`extractUrlParts` anchored at the start of the input.  Each `[^\/]+` group
is a maximal non-empty run of characters other than `'/'`; since such a run
is always followed in the pattern by a literal `'/'`, greedy matching with
no backtracking is exact. -/
def tryFull (s : List Char) : Option (String × String × String) :=
  match matchLit "/repos/".data s with
  | none => none
  | some r1 =>
    if (r1.takeWhile (fun c => c != '/')).isEmpty then none
    else
      match r1.dropWhile (fun c => c != '/') with
      | [] => none
      | d :: r3 =>
        if d = '/' then
          if (r3.takeWhile (fun c => c != '/')).isEmpty then none
          else
            match matchLit "/issues/".data (r3.dropWhile (fun c => c != '/')) with
            | none => none
            | some r5 =>
              if (r5.takeWhile (fun c => c != '/')).isEmpty then none
              else some (String.mk (r1.takeWhile (fun c => c != '/')),
                         String.mk (r3.takeWhile (fun c => c != '/')),
                         String.mk (r5.takeWhile (fun c => c != '/')))
        else none

/-- Leftmost-match search for the `extractUrlParts` regex: try each start
position from the left, as the host regex engine does. -/
def searchFull : List Char → Option (String × String × String)
  | [] => tryFull []
  | c :: rest =>
    match tryFull (c :: rest) with
    | some r => some r
    | none => searchFull rest

/-- `extractUrlParts`: `url.match(/\/repos\/([^\/]+)\/([^\/]+)\/issues\/([^\/]+)/)`
followed by reading the three capture groups.  `none` models the `null`
match whose dereference throws a `TypeError`. -/
def extractUrlParts (url : String) : Option (String × String × String) :=
  searchFull url.data

/-- Match the apply-loop regex `\/repos\/([^\/]+)\/([^\/]+)\/` anchored at
the start of the input. -/
def tryShort (s : List Char) : Option (String × String) :=
  match matchLit "/repos/".data s with
  | none => none
  | some r1 =>
    if (r1.takeWhile (fun c => c != '/')).isEmpty then none
    else
      match r1.dropWhile (fun c => c != '/') with
      | [] => none
      | d :: r3 =>
        if d = '/' then
          if (r3.takeWhile (fun c => c != '/')).isEmpty then none
          else
            match r3.dropWhile (fun c => c != '/') with
            | [] => none
            | d2 :: _ =>
              if d2 = '/' then
                some (String.mk (r1.takeWhile (fun c => c != '/')),
                      String.mk (r3.takeWhile (fun c => c != '/')))
              else none
        else none

/-- Leftmost-match search for the apply-loop regex. -/
def searchShort : List Char → Option (String × String)
  | [] => tryShort []
  | c :: rest =>
    match tryShort (c :: rest) with
    | some r => some r
    | none => searchShort rest

/-- The apply loop's `pr.url.match(new RegExp("\/repos\/([^\/]+)\/([^\/]+)\/"))`
with its two capture groups; `none` models the `null` match. -/
def extractOrgRepo (url : String) : Option (String × String) :=
  searchShort url.data

/-- `retry(func, triesLeft)`: invoke the function; on failure decrement the
try counter and re-invoke while tries remain, else rethrow.  The function's
successive invocations are modelled by an attempt-indexed oracle `f`. -/
def retryGo {α : Type} (f : Nat → Except JsError α) : Nat → Nat → Except JsError α
  | i, 0 => f i
  | i, 1 => f i
  | i, t + 2 =>
    match f i with
    | .ok a => .ok a
    | .error _ => retryGo f (i + 1) (t + 1)

/-- `retry(func)` with the default `triesLeft = 3`: at most three total
attempts, starting at attempt index 0. -/
def retryF {α : Type} (f : Nat → Except JsError α) : Except JsError α :=
  retryGo f 0 3

/-- One discovered pull request, with the response fields the script
reads: numeric `id`, `number`, `title`, API `url` and `user.login`. -/
structure PR where
  id : Nat
  number : Nat
  title : String
  url : String
  userLogin : String
  deriving DecidableEq

/-- One page of `GET /search/issues`: the `items` array and the
host-reported `total_count`. -/
structure SearchResponse where
  items : List PR
  total_count : Nat
  deriving DecidableEq

/-- `prs.set(pr.id, pr)` on a JavaScript `Map` represented as an insertion
ordered association list: an existing key has its value replaced in place,
a new key is appended. -/
def mapInsert (m : List (Nat × PR)) (k : Nat) (v : PR) : List (Nat × PR) :=
  if m.any (fun p => p.1 == k) then
    m.map (fun p => if p.1 == k then (k, v) else p)
  else m ++ [(k, v)]

/-- Insert every item of a result page into the map, keyed by `pr.id`. -/
def insertAll (m : List (Nat × PR)) (items : List PR) : List (Nat × PR) :=
  items.foldl (fun acc pr => mapInsert acc pr.id pr) m

/-- The `while (page < 10)` pagination loop of `listAll` over a fallible
page oracle.  `fuel` is the loop-iteration budget implied by the guard (the
top-level call starts at `page = 1` with fuel 9, keeping `fuel + page = 10`,
so the guard `page < 10` and fuel exhaustion coincide).  Returns the final
map together with the number of pages fetched. -/
def listAllGoE (fetch : Nat → Except JsError SearchResponse) :
    Nat → Nat → List (Nat × PR) → Except JsError (List (Nat × PR) × Nat)
  | 0, _, m => .ok (m, 0)
  | fuel + 1, page, m =>
    if page < 10 then
      match fetch page with
      | .error e => .error e
      | .ok resp =>
        let m2 := insertAll m resp.items
        if resp.total_count ≤ m2.length then .ok (m2, 1)
        else
          match listAllGoE fetch fuel (page + 1) m2 with
          | .error e => .error e
          | .ok (m3, n) => .ok (m3, n + 1)
    else .ok (m, 0)

/-- `listAll`: paginate the search from page 1, deduplicate by id, and
return `[...prs.values()]`.  A page-fetch failure propagates (there is no
retry wrapper around the search request). -/
def listAllE (fetch : Nat → Except JsError SearchResponse) :
    Except JsError (List PR) :=
  match listAllGoE fetch 9 1 [] with
  | .error e => .error e
  | .ok (m, _) => .ok (m.map Prod.snd)

/-- Lift an infallible page oracle into the fallible interface. -/
def liftFetch (fetch : Nat → SearchResponse) : Nat → Except JsError SearchResponse :=
  fun page => .ok (fetch page)

/-- The deduplicating accumulator state after processing pages `1..k` of an
infallible page oracle. -/
def accumState (fetch : Nat → SearchResponse) : Nat → List (Nat × PR)
  | 0 => []
  | k + 1 => insertAll (accumState fetch k) (fetch (k + 1)).items

/-- The number of pages `listAll` fetches from an infallible page oracle. -/
def listAllPages (fetch : Nat → SearchResponse) : Nat :=
  match listAllGoE (liftFetch fetch) 9 1 [] with
  | .ok r => r.2
  | .error _ => 0

/-- The oracles a run interacts with, plus the operator's confirmation
input (`none` models an undefined prompt result). -/
structure RunEnv where
  search : String → Nat → Except JsError SearchResponse
  checkFetch : Nat → Nat → Except JsError (List CheckRun)
  approveCall : Nat → Nat → Except JsError Unit
  mergeCall : Nat → Nat → Except JsError Unit
  confirmInput : Option String

/-- Observable actions of the apply phase, in program order. -/
inductive Event where
  | approveReq : Nat → Event
  | mergeReq : Nat → Event
  | skipAuthor : Nat → Event
  | skipTitle : Nat → Event
  deriving DecidableEq

/-- How a run ends: normal completion with `{processed, total}`, a
`process.exit` with a code, or an uncaught error reaching the top-level
catch. -/
inductive RunResult where
  | ok : Nat → Nat → RunResult
  | exit : Nat → RunResult
  | err : JsError → RunResult
  deriving DecidableEq

/-- `merge`: the squash-merge request with its internal `try/catch` — a
failed merge request is caught and logged, so the call always resolves. -/
def mergeAction (outcome : Except JsError Unit) : Except JsError Unit :=
  match outcome with
  | .ok _ => .ok ()
  | .error _ => .ok ()

/-- One invocation of `getCheckStatus(pr)`: extract the URL parts (a
malformed URL throws), fetch the PR detail and its check runs (modelled as
one composite oracle call per attempt), then reduce the check-run list. -/
def getCheckStatusE (env : RunEnv) (pr : PR) (attempt : Nat) : Except JsError String :=
  match extractUrlParts pr.url with
  | none => .error .typeError
  | some _ =>
    match env.checkFetch pr.id attempt with
    | .error e => .error e
    | .ok runs => .ok (getCheckStatus runs)

/-- The status `retry(() => getCheckStatus(pr))` settles on for a PR. -/
def statusOf (env : RunEnv) (pr : PR) : Except JsError String :=
  retryF (getCheckStatusE env pr)

/-- The two independent pushes of the discovery loop for one PR: the
success push (`status === "success"`) and the ignore-checks push
(`ignoreChecks && status !== "success"`). -/
def pushPair (status : String) (ignoreChecks : Bool) (pr : PR) : List PR :=
  (if status == "success" then [pr] else []) ++
  (if ignoreChecks && status != "success" then [pr] else [])

/-- Whether the discovery loop appends a PR to `toMerge`. -/
def readyB (env : RunEnv) (ignoreChecks : Bool) (pr : PR) : Bool :=
  match statusOf env pr with
  | .ok s => (s == "success") || (ignoreChecks && s != "success")
  | .error _ => false

/-- The discovery/status-evaluation loop of `run`: per PR, extract the URL
parts (for the human URL — a malformed URL throws here), evaluate the
status under retry, and build the `toMerge` list; any unrecovered failure
propagates. -/
def evalLoop (env : RunEnv) (ignoreChecks : Bool) : List PR → Except JsError (List PR)
  | [] => .ok []
  | pr :: rest =>
    match extractUrlParts pr.url with
    | none => .error .typeError
    | some _ =>
      match statusOf env pr with
      | .error e => .error e
      | .ok status =>
        match evalLoop env ignoreChecks rest with
        | .error e => .error e
        | .ok tm => .ok (pushPair status ignoreChecks pr ++ tm)

/-- The confirmation gate: `some code` means `process.exit(code)`, `none`
means the run proceeds.  Undefined input, any token other than y/n
(case-insensitively), and a negative answer all exit with code 1. -/
def confirmGate (input : Option String) : Option Nat :=
  match input with
  | none => some 1
  | some s =>
    if toLowerS s != "n" && toLowerS s != "y" then some 1
    else if toLowerS s == "n" then some 1
    else none

/-- Byte-wise list prefix test. -/
def isPrefixB : List Char → List Char → Bool
  | [], _ => true
  | _ :: _, [] => false
  | a :: as, b :: bs => a == b && isPrefixB as bs

/-- `hay.includes(needle)` on character lists. -/
def isInfixB (needle : List Char) : List Char → Bool
  | [] => isPrefixB needle []
  | c :: rest => isPrefixB needle (c :: rest) || isInfixB needle rest

/-- The apply-phase author safety check:
`pr.user.login.toLowerCase() === requiredUserLogin.toLowerCase()`. -/
def authorOk (requiredUserLogin : String) (pr : PR) : Bool :=
  toLowerS pr.userLogin == toLowerS requiredUserLogin

/-- The apply-phase title safety check:
`pr.title.toLowerCase().includes(title.toLowerCase())`. -/
def titleOk (title : String) (pr : PR) : Bool :=
  isInfixB (toLowerS title).data (toLowerS pr.title).data

/-- The events the apply phase emits for one candidate it reaches and
finishes with. -/
def prEvents (requiredUserLogin title : String) (pr : PR) : List Event :=
  if authorOk requiredUserLogin pr = false then [Event.skipAuthor pr.id]
  else if titleOk title pr = false then [Event.skipTitle pr.id]
  else [Event.approveReq pr.id, Event.mergeReq pr.id]

/-- The apply loop of `run`: per candidate, match the short URL regex (a
malformed URL throws), re-validate author then title (a mismatch skips the
candidate and continues), then approve under retry (an unrecovered approve
failure propagates) and merge under retry (the merge's internal catch means
the retry wrapper never observes a failure), incrementing `processed`.
Returns the emitted events and the final `processed` count or the error
that aborted the loop. -/
def applyLoop (env : RunEnv) (requiredUserLogin title : String) :
    List PR → Nat → List Event × Except JsError Nat
  | [], processed => ([], .ok processed)
  | pr :: rest, processed =>
    match extractOrgRepo pr.url with
    | none => ([], .error .typeError)
    | some _ =>
      if authorOk requiredUserLogin pr = false then
        let r := applyLoop env requiredUserLogin title rest processed
        (Event.skipAuthor pr.id :: r.1, r.2)
      else if titleOk title pr = false then
        let r := applyLoop env requiredUserLogin title rest processed
        (Event.skipTitle pr.id :: r.1, r.2)
      else
        match retryF (env.approveCall pr.id) with
        | .error e => ([Event.approveReq pr.id], .error e)
        | .ok _ =>
          match retryF (fun i => mergeAction (env.mergeCall pr.id i)) with
          | .error e => ([Event.approveReq pr.id, Event.mergeReq pr.id], .error e)
          | .ok _ =>
            let r := applyLoop env requiredUserLogin title rest (processed + 1)
            (Event.approveReq pr.id :: Event.mergeReq pr.id :: r.1, r.2)

/-- The author remap at the top of `run`:
`if (author === "dependabot") author = "app/dependabot"`. -/
def resolveAuthor (author : String) : String :=
  if author == "dependabot" then "app/dependabot" else author

/-- `requiredUserLogin`: the expected login the apply phase re-validates
against, special-casing the dependabot app author. -/
def requiredLogin (author : String) : String :=
  if author == "app/dependabot" then "dependabot[bot]" else author

/-- The tail of `run` after the confirmation gate: run the apply loop and
package the outcome. -/
def finishApply (env : RunEnv) (author title : String) (toMerge : List PR)
    (total : Nat) : List Event × RunResult :=
  match applyLoop env (requiredLogin author) title toMerge 0 with
  | (tr, .ok processed) => (tr, .ok processed total)
  | (tr, .error e) => (tr, .err e)

/-- `run(orgs, title, author, restrictToRepos, { ignoreChecks })`: remap
the author, discover candidates, evaluate statuses, gate on operator
confirmation when any candidate is ready, then apply.  Returns the emitted
apply-phase events and how the run ended. -/
def runM (env : RunEnv) (orgs title author : String) (restrictToRepos : List String)
    (ignoreChecks : Bool) : List Event × RunResult :=
  let author1 := resolveAuthor author
  let query := constructQuery (splitComma orgs) title author1 restrictToRepos
  match listAllE (env.search query) with
  | .error e => ([], .err e)
  | .ok prs =>
    match evalLoop env ignoreChecks prs with
    | .error e => ([], .err e)
    | .ok toMerge =>
      if 0 < toMerge.length then
        match confirmGate env.confirmInput with
        | some code => ([], .exit code)
        | none => finishApply env author1 title toMerge prs.length
      else finishApply env author1 title toMerge prs.length

/-- Does an event record an approve request for PR id `k`? -/
def approveFor (k : Nat) (e : Event) : Bool :=
  match e with
  | .approveReq j => j == k
  | _ => false

/-- `goodMap m`: keys are duplicate-free and every stored value's id equals
its key — the invariant of the deduplicating map. -/
def goodMap (m : List (Nat × PR)) : Prop :=
  (m.map Prod.fst).Nodup ∧ ∀ p ∈ m, p.2.id = p.1

/-- Concrete PR used in witnesses. -/
def samplePR (k : Nat) : PR :=
  ⟨k, k, "Bump lodash from 4.17.20 to 4.17.21", "/repos/acme/web/issues/1",
   "dependabot[bot]"⟩

/-- A concrete valid candidate. -/
def prGood : PR := samplePR 1

/-- Concrete PR with a wrong author. -/
def prBadAuthor : PR :=
  ⟨2, 2, "Bump lodash from 4.17.20 to 4.17.21", "/repos/acme/web/issues/2", "mallory"⟩

/-- Concrete PR with a wrong title. -/
def prBadTitle : PR :=
  ⟨3, 3, "Update README", "/repos/acme/web/issues/3", "dependabot[bot]"⟩

/-- One concrete search page with five candidates. -/
def fivePage : SearchResponse :=
  ⟨[samplePR 1, samplePR 2, samplePR 3, samplePR 4, samplePR 5], 5⟩

/-- Concrete environment: five ready candidates, merges for id 3 failing,
with a chosen confirmation input. -/
def envWith (input : Option String) : RunEnv where
  search := fun _ page => if page == 1 then .ok fivePage else .ok ⟨[], 5⟩
  checkFetch := fun _ _ => .ok [⟨"completed", some "success"⟩]
  approveCall := fun _ _ => .ok ()
  mergeCall := fun k _ => if k == 3 then .error (.hostError 405) else .ok ()
  confirmInput := input

/-- The five-candidate scenario with an affirmative confirmation. -/
def envScenario : RunEnv := envWith (some "y")

/-- Environment whose approve and merge oracles always succeed. -/
def envOk : RunEnv where
  search := fun _ _ => .ok ⟨[], 0⟩
  checkFetch := fun _ _ => .ok [⟨"completed", some "success"⟩]
  approveCall := fun _ _ => .ok ()
  mergeCall := fun _ _ => .ok ()
  confirmInput := some "y"

/-- Environment whose merge oracle always fails. -/
def envMergeFail : RunEnv where
  search := fun _ _ => .ok ⟨[], 0⟩
  checkFetch := fun _ _ => .ok [⟨"completed", some "success"⟩]
  approveCall := fun _ _ => .ok ()
  mergeCall := fun _ _ => .error (.hostError 405)
  confirmInput := some "y"

/-- Environment whose check runs report a failure. -/
def envChecksFail : RunEnv where
  search := fun _ _ => .ok ⟨[], 0⟩
  checkFetch := fun _ _ => .ok [⟨"completed", some "failure"⟩]
  approveCall := fun _ _ => .ok ()
  mergeCall := fun _ _ => .ok ()
  confirmInput := some "y"

/-- Environment whose first (and only) search request fails transiently. -/
def envFlaky : RunEnv where
  search := fun _ page => if page == 1 then .error (.hostError 503) else .ok ⟨[], 0⟩
  checkFetch := fun _ _ => .ok []
  approveCall := fun _ _ => .ok ()
  mergeCall := fun _ _ => .ok ()
  confirmInput := some "y"

/-- An attempt-indexed call that fails transiently on its first attempt
only. -/
def onceFail (attempt : Nat) : Except JsError Nat :=
  if attempt == 0 then .error (.hostError 503) else .ok 1

/-- An attempt-indexed call that always fails. -/
def alwaysFail : Nat → Except JsError Nat :=
  fun _ => .error (.hostError 500)

/-- Page oracle with duplicate identities inside its first page. -/
def fetchEx (page : Nat) : SearchResponse :=
  if page == 1 then ⟨[samplePR 1, prBadAuthor, samplePR 1], 2⟩ else ⟨[], 2⟩

/-- C1: `getCheckStatus` follows the ordered first-match policy: `missing`
exactly on the empty list; `success` exactly when the list is non-empty and
every conclusion is in {success, neutral, skipped}; then `queued` on any
queued run, then `in_progress` on any in-progress run, else `failed`; the
classification is total (always one of the five strings) and the five cases
are mutually exclusive. -/
theorem claim1_getCheckStatus_ordered_policy (runs : List CheckRun) :
    getCheckStatus runs ∈ ["missing", "success", "queued", "in_progress", "failed"] ∧
    (getCheckStatus runs = "missing" ↔ runs = []) ∧
    (getCheckStatus runs = "success" ↔ runs ≠ [] ∧ runs.all conclusionOk = true) ∧
    (getCheckStatus runs = "queued" ↔ runs ≠ [] ∧ runs.all conclusionOk = false ∧
      runs.any (fun r => r.status == "queued") = true) ∧
    (getCheckStatus runs = "in_progress" ↔ runs ≠ [] ∧ runs.all conclusionOk = false ∧
      runs.any (fun r => r.status == "queued") = false ∧
      runs.any (fun r => r.status == "in_progress") = true) ∧
    (getCheckStatus runs = "failed" ↔ runs ≠ [] ∧ runs.all conclusionOk = false ∧
      runs.any (fun r => r.status == "queued") = false ∧
      runs.any (fun r => r.status == "in_progress") = false) := by
  unfold getCheckStatus
  rcases runs with _ | ⟨r, rs⟩
  · simp
  · simp only [List.length_cons, Nat.not_lt.mpr (Nat.succ_le_succ (Nat.zero_le _)),
      if_false]
    have hne : r :: rs ≠ [] := by simp
    by_cases h1 : (r :: rs).all conclusionOk
    · simp [h1, hne]
    · by_cases h2 : (r :: rs).any (fun x => x.status == "queued")
      · simp [h1, h2, hne]
      · by_cases h3 : (r :: rs).any (fun x => x.status == "in_progress")
        · simp [h1, h2, h3, hne]
        · simp [h1, h2, h3, hne]

/-- Unfolding `retryF`: three total attempts at indices 0, 1, 2. -/
theorem retryF_eq {α : Type} (f : Nat → Except JsError α) :
    retryF f = match f 0 with
      | .ok a => .ok a
      | .error _ => match f 1 with
        | .ok a => .ok a
        | .error _ => f 2 := by
  have h3 : retryF f = match f 0 with
      | .ok a => .ok a
      | .error _ => retryGo f 1 2 := rfl
  have h2 : retryGo f 1 2 = match f 1 with
      | .ok a => .ok a
      | .error _ => retryGo f 2 1 := rfl
  have h1 : retryGo f 2 1 = f 2 := rfl
  rw [h3, h2, h1]

/-- A success on the first attempt is returned without further attempts. -/
theorem retryF_first_ok {α : Type} (f : Nat → Except JsError α) (a : α)
    (h : f 0 = .ok a) : retryF f = .ok a := by
  rw [retryF_eq, h]

/-- A transient failure on the first attempt is absorbed by the second. -/
theorem retryF_second_ok {α : Type} (f : Nat → Except JsError α) (e0 : JsError) (a : α)
    (h0 : f 0 = .error e0) (h1 : f 1 = .ok a) : retryF f = .ok a := by
  rw [retryF_eq, h0, h1]

/-- After failures on the first two attempts the third attempt decides. -/
theorem retryF_third {α : Type} (f : Nat → Except JsError α) (e0 e1 : JsError)
    (h0 : f 0 = .error e0) (h1 : f 1 = .error e1) : retryF f = f 2 := by
  rw [retryF_eq, h0, h1]

/-- The merge action's internal catch makes it resolve on every outcome. -/
theorem mergeAction_ok (o : Except JsError Unit) : mergeAction o = .ok () := by
  cases o <;> rfl

/-- Under the retry wrapper the merge action succeeds on its first attempt,
so no merge failure is ever retried or propagated. -/
theorem retryF_mergeAction (g : Nat → Except JsError Unit) :
    retryF (fun i => mergeAction (g i)) = .ok () :=
  retryF_first_ok (fun i => mergeAction (g i)) () (mergeAction_ok (g 0))

/-- The two pushes of the discovery loop amount to a single conditional
append: their guards are mutually exclusive. -/
theorem pushPair_eq (s : String) (ig : Bool) (pr : PR) :
    pushPair s ig pr =
      if (s == "success") || (ig && s != "success") then [pr] else [] := by
  unfold pushPair
  by_cases h : s == "success" <;> simp [h, bne]

/-- The confirmation gate lets the run proceed exactly on a defined input
whose lower-cased form is `"y"`. -/
theorem confirmGate_none_iff (input : Option String) :
    confirmGate input = none ↔ ∃ s, input = some s ∧ toLowerS s = "y" := by
  cases input with
  | none => simp [confirmGate]
  | some s =>
    unfold confirmGate
    by_cases hy : toLowerS s = "y"
    · have hn : toLowerS s ≠ "n" := by rw [hy]; decide
      simp [hy, hn, bne]
    · by_cases hn : toLowerS s = "n"
      · simp [hy, hn, bne]
      · simp [hy, hn, bne]

/-- C7: `constructQuery` yields the single filter expression with the fixed
terms (open, is-a-PR, not archived, not draft, zero comments), the author
term, the quoted title phrase, and the scope: an OR-combination of the
organizations when the repository restriction list is empty, otherwise only
explicit `repo:` terms, one per restricted repository.  As a Lean function
it is pure by construction. -/
theorem claim7_constructQuery_shape (owners : List String) (title author : String)
    (restrictToRepos : List String) :
    (restrictToRepos = [] →
      constructQuery owners title author restrictToRepos =
        String.intercalate " "
          (["is:open", "is:pr", "archived:false", "draft:false", "comments:0",
            "author:" ++ author, "in:title", "\"" ++ title ++ "\""] ++
           ["(" ++ String.intercalate " OR "
              (owners.map (fun owner => "org:" ++ owner)) ++ ")"])) ∧
    (restrictToRepos ≠ [] →
      constructQuery owners title author restrictToRepos =
        String.intercalate " "
          (["is:open", "is:pr", "archived:false", "draft:false", "comments:0",
            "author:" ++ author, "in:title", "\"" ++ title ++ "\""] ++
           restrictToRepos.map (fun repo => "repo:" ++ repo))) := by
  constructor
  · intro h; subst h; rfl
  · intro h
    unfold constructQuery
    have hlen : (restrictToRepos.length == 0) = false := by
      cases restrictToRepos with
      | nil => exact absurd rfl h
      | cons a l => rfl
    simp only [hlen, if_false, Bool.false_eq_true]

/-- Witness for C7 at concrete inputs, one per scope branch. -/
theorem claim7_witness :
    constructQuery ["acme", "widgets"] "bump lodash" "app/dependabot" [] =
      "is:open is:pr archived:false draft:false comments:0 author:app/dependabot in:title \"bump lodash\" (org:acme OR org:widgets)" ∧
    constructQuery ["acme"] "bump lodash" "app/dependabot" ["acme/web"] =
      "is:open is:pr archived:false draft:false comments:0 author:app/dependabot in:title \"bump lodash\" repo:acme/web" := by
  constructor
  · rw [(claim7_constructQuery_shape ["acme", "widgets"] "bump lodash" "app/dependabot" []).1 rfl]
    rfl
  · rw [(claim7_constructQuery_shape ["acme"] "bump lodash" "app/dependabot" ["acme/web"]).2
      (by decide)]
    rfl

/-- The key-presence test of `mapInsert` decides key membership. -/
theorem mapInsert_any_iff (m : List (Nat × PR)) (k : Nat) :
    (m.any (fun p => p.1 == k)) = true ↔ k ∈ m.map Prod.fst := by
  simp only [List.any_eq_true, beq_iff_eq, List.mem_map]

/-- Keys after `mapInsert`: unchanged for an existing key, appended for a
new one. -/
theorem mapInsert_keys (m : List (Nat × PR)) (k : Nat) (v : PR) :
    (mapInsert m k v).map Prod.fst =
      if k ∈ m.map Prod.fst then m.map Prod.fst else m.map Prod.fst ++ [k] := by
  unfold mapInsert
  by_cases h : m.any (fun p => p.1 == k)
  · rw [if_pos h, if_pos ((mapInsert_any_iff m k).mp h)]
    rw [List.map_map]
    apply List.map_congr_left
    intro p hp
    by_cases hpk : p.1 = k
    · simp [hpk]
    · simp [hpk]
  · rw [if_neg h, if_neg (fun hk => h ((mapInsert_any_iff m k).mpr hk))]
    simp

/-- Key membership after `mapInsert`. -/
theorem mapInsert_keys_mem (m : List (Nat × PR)) (k : Nat) (v : PR) (a : Nat) :
    a ∈ (mapInsert m k v).map Prod.fst ↔ a ∈ m.map Prod.fst ∨ a = k := by
  rw [mapInsert_keys]
  by_cases h : k ∈ m.map Prod.fst
  · rw [if_pos h]
    constructor
    · exact Or.inl
    · rintro (ha | ha)
      · exact ha
      · exact ha ▸ h
  · rw [if_neg h]
    simp

/-- `mapInsert` preserves duplicate-freedom of the keys. -/
theorem mapInsert_keys_nodup (m : List (Nat × PR)) (k : Nat) (v : PR)
    (h : (m.map Prod.fst).Nodup) : ((mapInsert m k v).map Prod.fst).Nodup := by
  rw [mapInsert_keys]
  by_cases hk : k ∈ m.map Prod.fst
  · rwa [if_pos hk]
  · rw [if_neg hk]
    rw [List.nodup_append]
    exact ⟨h, List.nodup_singleton k, by
      intro a ha hb
      have : a = k := by simpa using hb
      exact hk (this ▸ ha)⟩

/-- `mapInsert` with a value whose id equals the key preserves the
value-id invariant. -/
theorem mapInsert_vals (m : List (Nat × PR)) (k : Nat) (v : PR) (hv : v.id = k)
    (h : ∀ p ∈ m, p.2.id = p.1) : ∀ p ∈ mapInsert m k v, p.2.id = p.1 := by
  unfold mapInsert
  by_cases hc : m.any (fun p => p.1 == k)
  · rw [if_pos hc]
    intro p hp
    rw [List.mem_map] at hp
    obtain ⟨q, hq, hpq⟩ := hp
    by_cases hqk : q.1 == k
    · rw [if_pos hqk] at hpq
      rw [← hpq]
      exact hv
    · rw [if_neg hqk] at hpq
      rw [← hpq]
      exact h q hq
  · rw [if_neg hc]
    intro p hp
    rcases List.mem_append.mp hp with hp | hp
    · exact h p hp
    · have : p = (k, v) := by simpa using hp
      rw [this]
      exact hv

/-- `insertAll` preserves the deduplication invariant. -/
theorem insertAll_goodMap : ∀ (items : List PR) (m : List (Nat × PR)),
    goodMap m → goodMap (insertAll m items)
  | [], _, h => h
  | pr :: items, m, h =>
    insertAll_goodMap items (mapInsert m pr.id pr)
      ⟨mapInsert_keys_nodup m pr.id pr h.1, mapInsert_vals m pr.id pr rfl h.2⟩

/-- Key membership after `insertAll`: the old keys plus the ids of the
inserted items. -/
theorem insertAll_keys_mem : ∀ (items : List PR) (m : List (Nat × PR)) (a : Nat),
    a ∈ (insertAll m items).map Prod.fst ↔
      a ∈ m.map Prod.fst ∨ a ∈ items.map PR.id
  | [], m, a => by simp [insertAll]
  | pr :: items, m, a => by
    have ih := insertAll_keys_mem items (mapInsert m pr.id pr) a
    rw [show insertAll m (pr :: items) = insertAll (mapInsert m pr.id pr) items from rfl]
    rw [ih, mapInsert_keys_mem]
    simp only [List.map_cons, List.mem_cons]
    tauto

/-- Every accumulator state satisfies the deduplication invariant. -/
theorem accumState_goodMap (fetch : Nat → SearchResponse) :
    ∀ k, goodMap (accumState fetch k)
  | 0 => ⟨by simp [accumState], by simp [accumState]⟩
  | k + 1 => insertAll_goodMap (fetch (k + 1)).items (accumState fetch k)
      (accumState_goodMap fetch k)

/-- The accumulator's keys after pages `1..k` are exactly the ids occurring
on those pages. -/
theorem accumState_keys_mem (fetch : Nat → SearchResponse) :
    ∀ (k : Nat) (a : Nat), a ∈ (accumState fetch k).map Prod.fst ↔
      ∃ j, 1 ≤ j ∧ j ≤ k ∧ a ∈ (fetch j).items.map PR.id
  | 0, a => by
    simp only [accumState, List.map_nil, List.not_mem_nil, false_iff, not_exists]
    rintro j ⟨h1, h2, _⟩
    omega
  | k + 1, a => by
    rw [show accumState fetch (k + 1) =
      insertAll (accumState fetch k) (fetch (k + 1)).items from rfl]
    rw [insertAll_keys_mem, accumState_keys_mem fetch k]
    constructor
    · rintro (⟨j, h1, h2, h3⟩ | h)
      · exact ⟨j, h1, by omega, h3⟩
      · exact ⟨k + 1, by omega, by omega, h⟩
    · rintro ⟨j, h1, h2, h3⟩
      by_cases hj : j ≤ k
      · exact Or.inl ⟨j, h1, hj, h3⟩
      · have hj1 : j = k + 1 := by omega
        exact Or.inr (hj1 ▸ h3)

/-- Characterization of the pagination loop over an infallible page
oracle, maintaining the invariant `fuel + page = 10`: starting after `p`
processed pages it fetches some `n` further pages, never exceeding the
fuel, stopping early only once the accumulated size reaches the reported
total, and not stopping one page earlier. -/
theorem listAllGo_pure (fetch : Nat → SearchResponse) :
    ∀ fuel p, fuel + p = 9 →
      ∃ n, listAllGoE (liftFetch fetch) fuel (p + 1) (accumState fetch p) =
          .ok (accumState fetch (p + n), n) ∧
        n ≤ fuel ∧
        (n < fuel → (fetch (p + n)).total_count ≤ (accumState fetch (p + n)).length) ∧
        (∀ j, p < j → j < p + n → (accumState fetch j).length < (fetch j).total_count) := by
  intro fuel
  induction fuel with
  | zero =>
    intro p hp
    have hguard : ¬ (p + 1 < 10) := by omega
    refine ⟨0, ?_, Nat.le_refl 0, by omega, by omega⟩
    simp [listAllGoE]
  | succ fuel ih =>
    intro p hp
    have hpage : p + 1 < 10 := by omega
    have hm2 : insertAll (accumState fetch p) (fetch (p + 1)).items =
        accumState fetch (p + 1) := rfl
    by_cases hstop :
        (fetch (p + 1)).total_count ≤ (accumState fetch (p + 1)).length
    · refine ⟨1, ?_, by omega, fun _ => hstop, by omega⟩
      simp [listAllGoE, hpage, liftFetch, hm2, hstop]
    · obtain ⟨n, heq, hle, hlast, hmin⟩ := ih (p + 1) (by omega)
      refine ⟨n + 1, ?_, by omega, ?_, ?_⟩
      · have hidx : p + (n + 1) = (p + 1) + n := by omega
        rw [hidx]
        simp only [listAllGoE, hpage, if_true, liftFetch, hm2]
        rw [if_neg hstop]
        have heq2 : listAllGoE (liftFetch fetch) fuel (p + 1 + 1) (accumState fetch (p + 1)) =
            .ok (accumState fetch (p + 1 + n), n) := heq
        simp [heq2]
      · intro hlt
        have hidx : p + (n + 1) = (p + 1) + n := by omega
        rw [hidx]
        exact hlast (by omega)
      · intro j hj1 hj2
        by_cases hj : j = p + 1
        · subst hj
          exact Nat.lt_of_not_le hstop
        · exact hmin j (by omega) (by omega)

/-- C5: discovery paginates at fixed size from page 1, deduplicating by
numeric id; the loop fetches at most 9 pages (the `page < 10` safety
bound), stops exactly when the deduplicated size first reaches the
host-reported total (or the bound is hit), and the returned candidate list
carries duplicate-free ids that are exactly the ids occurring on the
fetched pages. -/
theorem claim5_listAll_pagination (fetch : Nat → SearchResponse) :
    listAllE (liftFetch fetch) =
      .ok ((accumState fetch (listAllPages fetch)).map Prod.snd) ∧
    listAllPages fetch ≤ 9 ∧
    (listAllPages fetch < 9 →
      (fetch (listAllPages fetch)).total_count ≤
        (accumState fetch (listAllPages fetch)).length) ∧
    (∀ j, 0 < j → j < listAllPages fetch →
      (accumState fetch j).length < (fetch j).total_count) ∧
    (((accumState fetch (listAllPages fetch)).map Prod.snd).map PR.id).Nodup ∧
    (∀ k, k ∈ ((accumState fetch (listAllPages fetch)).map Prod.snd).map PR.id ↔
      ∃ j, 1 ≤ j ∧ j ≤ listAllPages fetch ∧ k ∈ (fetch j).items.map PR.id) := by
  obtain ⟨n, heq, hle, hstop, hmin⟩ := listAllGo_pure fetch 9 0 rfl
  have heq' : listAllGoE (liftFetch fetch) 9 1 [] = .ok (accumState fetch n, n) := by
    simpa [accumState] using heq
  have hpages : listAllPages fetch = n := by
    unfold listAllPages
    rw [heq']
  have hids : ∀ m, ((accumState fetch m).map Prod.snd).map PR.id =
      (accumState fetch m).map Prod.fst := by
    intro m
    rw [List.map_map]
    apply List.map_congr_left
    intro p hp
    exact (accumState_goodMap fetch m).2 p hp
  subst hpages
  refine ⟨?_, hle, ?_, ?_, ?_, ?_⟩
  · unfold listAllE
    rw [heq']
  · intro h
    simpa using hstop h
  · intro j hj1 hj2
    exact hmin j hj1 (by omega)
  · rw [hids]
    exact (accumState_goodMap fetch _).1
  · intro k
    rw [hids]
    exact accumState_keys_mem fetch _ k

/-- Witness for C5: a concrete oracle whose first page holds three items
with two distinct ids and total 2 — one page is fetched, within the bound,
and the result deduplicates to the two distinct ids. -/
theorem claim5_witness :
    listAllE (liftFetch fetchEx) =
      .ok ((accumState fetchEx (listAllPages fetchEx)).map Prod.snd) ∧
    (fetchEx (listAllPages fetchEx)).total_count ≤
      (accumState fetchEx (listAllPages fetchEx)).length ∧
    (((accumState fetchEx (listAllPages fetchEx)).map Prod.snd).map PR.id).Nodup :=
  ⟨(claim5_listAll_pagination fetchEx).1,
   (claim5_listAll_pagination fetchEx).2.2.1 (by decide),
   (claim5_listAll_pagination fetchEx).2.2.2.2.1⟩

/-- A successful discovery loop returns exactly the ready-filtered
candidates, in discovery order. -/
theorem evalLoop_ok_filter (env : RunEnv) (ig : Bool) :
    ∀ prs tm, evalLoop env ig prs = .ok tm → tm = prs.filter (readyB env ig) := by
  intro prs
  induction prs with
  | nil =>
    intro tm h
    simp only [evalLoop] at h
    simp at h
    simp [h]
  | cons pr rest ih =>
    intro tm h
    simp only [evalLoop] at h
    cases hu : extractUrlParts pr.url with
    | none => rw [hu] at h; simp at h
    | some u =>
      rw [hu] at h
      cases hs : statusOf env pr with
      | error e => rw [hs] at h; simp at h
      | ok s =>
        rw [hs] at h
        cases hr : evalLoop env ig rest with
        | error e => rw [hr] at h; simp at h
        | ok tm2 =>
          rw [hr] at h
          simp at h
          have hready : readyB env ig pr = ((s == "success") || (ig && s != "success")) := by
            unfold readyB
            rw [hs]
          rw [List.filter_cons, ← ih tm2 hr, ← h, pushPair_eq, hready]
          by_cases hb : ((s == "success") || (ig && s != "success")) = true
          · rw [if_pos hb, if_pos hb]
            rfl
          · rw [if_neg hb, if_neg hb]
            rfl

/-- A successful discovery loop visited every candidate: each has a
matching URL and a successfully settled status. -/
theorem evalLoop_ok_status (env : RunEnv) (ig : Bool) :
    ∀ prs tm, evalLoop env ig prs = .ok tm →
      ∀ pr ∈ prs, (extractUrlParts pr.url).isSome = true ∧
        ∃ s, statusOf env pr = .ok s := by
  intro prs
  induction prs with
  | nil => intro tm h pr hpr; simp at hpr
  | cons pr rest ih =>
    intro tm h q hq
    simp only [evalLoop] at h
    cases hu : extractUrlParts pr.url with
    | none => rw [hu] at h; simp at h
    | some u =>
      rw [hu] at h
      cases hs : statusOf env pr with
      | error e => rw [hs] at h; simp at h
      | ok s =>
        rw [hs] at h
        cases hr : evalLoop env ig rest with
        | error e => rw [hr] at h; simp at h
        | ok tm2 =>
          rcases List.mem_cons.mp hq with hq | hq
          · subst hq
            exact ⟨by rw [hu]; rfl, s, hs⟩
          · exact ih tm2 hr q hq

/-- A candidate whose URL lacks the issues segment aborts the discovery
loop with a `TypeError` as soon as it is reached. -/
theorem evalLoop_head_url_none (env : RunEnv) (ig : Bool) (pr : PR) (rest : List PR)
    (h : extractUrlParts pr.url = none) :
    evalLoop env ig (pr :: rest) = .error JsError.typeError := by
  simp only [evalLoop, h]

/-- An exhausted status retry aborts the discovery loop with that error. -/
theorem evalLoop_head_status_error (env : RunEnv) (ig : Bool) (pr : PR)
    (rest : List PR) (e : JsError) (hu : (extractUrlParts pr.url).isSome = true)
    (h : statusOf env pr = .error e) :
    evalLoop env ig (pr :: rest) = .error e := by
  obtain ⟨u, hu'⟩ := Option.isSome_iff_exists.mp hu
  simp only [evalLoop, hu', h]

/-- A completed apply loop emits exactly the per-candidate event blocks in
order, and `processed` counts exactly the candidates passing both safety
checks — independently of every merge outcome. -/
theorem applyLoop_ok (env : RunEnv) (req title : String) :
    ∀ prs p tr q, applyLoop env req title prs p = (tr, .ok q) →
      tr = ((prs.map (prEvents req title)).flatten : List Event) ∧
      q = p + prs.countP (fun pr => authorOk req pr && titleOk title pr) := by
  intro prs
  induction prs with
  | nil =>
    intro p tr q h
    simp only [applyLoop] at h
    simp at h
    simp [← h.1, ← h.2]
  | cons pr rest ih =>
    intro p tr q h
    simp only [applyLoop] at h
    cases hu : extractOrgRepo pr.url with
    | none => rw [hu] at h; simp at h
    | some u =>
      rw [hu] at h
      by_cases ha : authorOk req pr = false
      · rw [if_pos ha] at h
        cases hr : applyLoop env req title rest p with
        | mk tr2 res2 =>
          rw [hr] at h
          simp at h
          obtain ⟨htr, hres⟩ := h
          obtain ⟨ih1, ih2⟩ := ih p tr2 q (by rw [hr, hres])
          constructor
          · rw [← htr, ih1]
            simp [prEvents, ha]
          · rw [ih2]
            simp [List.countP_cons, ha]
      · rw [if_neg ha] at h
        have haT : authorOk req pr = true := by
          cases hb : authorOk req pr
          · exact absurd hb ha
          · rfl
        by_cases ht : titleOk title pr = false
        · rw [if_pos ht] at h
          cases hr : applyLoop env req title rest p with
          | mk tr2 res2 =>
            rw [hr] at h
            simp at h
            obtain ⟨htr, hres⟩ := h
            obtain ⟨ih1, ih2⟩ := ih p tr2 q (by rw [hr, hres])
            constructor
            · rw [← htr, ih1]
              simp [prEvents, ha, haT, ht]
            · rw [ih2]
              simp [List.countP_cons, haT, ht]
        · rw [if_neg ht] at h
          have htT : titleOk title pr = true := by
            cases hb : titleOk title pr
            · exact absurd hb ht
            · rfl
          cases hap : retryF (env.approveCall pr.id) with
          | error e => rw [hap] at h; simp at h
          | ok v =>
            rw [hap, retryF_mergeAction] at h
            cases hr : applyLoop env req title rest (p + 1) with
            | mk tr2 res2 =>
              rw [hr] at h
              simp at h
              obtain ⟨htr, hres⟩ := h
              obtain ⟨ih1, ih2⟩ := ih (p + 1) tr2 q (by rw [hr, hres])
              constructor
              · rw [← htr, ih1]
                simp [prEvents, haT, htT]
              · rw [ih2]
                simp [List.countP_cons, haT, htT]
                omega

/-- An approve or merge request event is only ever emitted for a candidate
that passed both re-validation checks — in completed and aborted runs
alike. -/
theorem applyLoop_event_validated (env : RunEnv) (req title : String) :
    ∀ prs p k,
      (Event.approveReq k ∈ (applyLoop env req title prs p).1 ∨
       Event.mergeReq k ∈ (applyLoop env req title prs p).1) →
      ∃ pr, pr ∈ prs ∧ pr.id = k ∧ authorOk req pr = true ∧
        titleOk title pr = true := by
  intro prs
  induction prs with
  | nil => intro p k h; simp [applyLoop] at h
  | cons pr rest ih =>
    intro p k h
    simp only [applyLoop] at h
    cases hu : extractOrgRepo pr.url with
    | none => rw [hu] at h; simp at h
    | some u =>
      rw [hu] at h
      by_cases ha : authorOk req pr = false
      · rw [if_pos ha] at h
        simp only [List.mem_cons] at h
        have h' : Event.approveReq k ∈ (applyLoop env req title rest p).1 ∨
            Event.mergeReq k ∈ (applyLoop env req title rest p).1 := by
          rcases h with (h | h) | (h | h)
          · cases h
          · exact Or.inl h
          · cases h
          · exact Or.inr h
        obtain ⟨pr', hm, hrest⟩ := ih p k h'
        exact ⟨pr', List.mem_cons_of_mem pr hm, hrest⟩
      · rw [if_neg ha] at h
        have haT : authorOk req pr = true := by
          cases hb : authorOk req pr
          · exact absurd hb ha
          · rfl
        by_cases ht : titleOk title pr = false
        · rw [if_pos ht] at h
          simp only [List.mem_cons] at h
          have h' : Event.approveReq k ∈ (applyLoop env req title rest p).1 ∨
              Event.mergeReq k ∈ (applyLoop env req title rest p).1 := by
            rcases h with (h | h) | (h | h)
            · cases h
            · exact Or.inl h
            · cases h
            · exact Or.inr h
          obtain ⟨pr', hm, hrest⟩ := ih p k h'
          exact ⟨pr', List.mem_cons_of_mem pr hm, hrest⟩
        · rw [if_neg ht] at h
          have htT : titleOk title pr = true := by
            cases hb : titleOk title pr
            · exact absurd hb ht
            · rfl
          cases hap : retryF (env.approveCall pr.id) with
          | error e =>
            rw [hap] at h
            simp only [List.mem_cons, List.not_mem_nil, or_false] at h
            rcases h with h | h
            · cases h
              exact ⟨pr, List.mem_cons_self pr rest, rfl, haT, htT⟩
            · cases h
          | ok v =>
            rw [hap, retryF_mergeAction] at h
            simp only [List.mem_cons] at h
            rcases h with (h | h | h) | (h | h | h)
            · cases h
              exact ⟨pr, List.mem_cons_self pr rest, rfl, haT, htT⟩
            · cases h
            · obtain ⟨pr', hm, hrest⟩ := ih (p + 1) k (Or.inl h)
              exact ⟨pr', List.mem_cons_of_mem pr hm, hrest⟩
            · cases h
            · cases h
              exact ⟨pr, List.mem_cons_self pr rest, rfl, haT, htT⟩
            · obtain ⟨pr', hm, hrest⟩ := ih (p + 1) k (Or.inr h)
              exact ⟨pr', List.mem_cons_of_mem pr hm, hrest⟩

/-- The apply loop emits at most as many approve requests for an id as
there are candidates with that id. -/
theorem applyLoop_approve_count (env : RunEnv) (req title : String) :
    ∀ prs p k, ((applyLoop env req title prs p).1.countP (approveFor k)) ≤
      prs.countP (fun pr => pr.id == k) := by
  intro prs
  induction prs with
  | nil => intro p k; simp [applyLoop]
  | cons pr rest ih =>
    intro p k
    simp only [applyLoop]
    cases hu : extractOrgRepo pr.url with
    | none => simp [List.countP_cons]
    | some u =>
      by_cases ha : authorOk req pr = false
      · rw [if_pos ha]
        simp only [List.countP_cons]
        have hsk : approveFor k (Event.skipAuthor pr.id) = false := rfl
        simp only [hsk, if_false]
        calc ((applyLoop env req title rest p).1.countP (approveFor k))
            ≤ rest.countP (fun x => x.id == k) := ih p k
          _ ≤ rest.countP (fun x => x.id == k) +
              (if (pr.id == k) = true then 1 else 0) := Nat.le_add_right _ _
      · rw [if_neg ha]
        by_cases ht : titleOk title pr = false
        · rw [if_pos ht]
          simp only [List.countP_cons]
          have hsk : approveFor k (Event.skipTitle pr.id) = false := rfl
          simp only [hsk, if_false]
          calc ((applyLoop env req title rest p).1.countP (approveFor k))
              ≤ rest.countP (fun x => x.id == k) := ih p k
            _ ≤ rest.countP (fun x => x.id == k) +
                (if (pr.id == k) = true then 1 else 0) := Nat.le_add_right _ _
        · rw [if_neg ht]
          have hap : approveFor k (Event.approveReq pr.id) = (pr.id == k) := rfl
          have hmg : approveFor k (Event.mergeReq pr.id) = false := rfl
          cases hr : retryF (env.approveCall pr.id) with
          | error e =>
            simp only [List.countP_cons, List.countP_nil, hap, hmg,
              List.countP_cons]
            by_cases hk : (pr.id == k) = true
            · simp [hk]
            · simp [hk]
          | ok v =>
            rw [retryF_mergeAction]
            simp only [List.countP_cons, hap, hmg, Bool.false_eq_true, if_false]
            have := ih (p + 1) k
            by_cases hk : (pr.id == k) = true
            · simp only [hk, if_true]
              omega
            · simp only [hk, if_false]
              omega

/-- The apply loop completes whenever every candidate's URL matches the
short regex and every approve retry succeeds — merge outcomes never block
completion. -/
theorem applyLoop_completes (env : RunEnv) (req title : String) :
    ∀ prs p, (∀ pr ∈ prs, (extractOrgRepo pr.url).isSome = true) →
      (∀ pr ∈ prs, retryF (env.approveCall pr.id) = .ok ()) →
      ∃ tr q, applyLoop env req title prs p = (tr, .ok q) := by
  intro prs
  induction prs with
  | nil => intro p _ _; exact ⟨[], p, rfl⟩
  | cons pr rest ih =>
    intro p hurl happ
    obtain ⟨u, hu⟩ := Option.isSome_iff_exists.mp (hurl pr (List.mem_cons_self pr rest))
    simp only [applyLoop, hu]
    by_cases ha : authorOk req pr = false
    · rw [if_pos ha]
      obtain ⟨tr2, q2, h2⟩ := ih p (fun x hx => hurl x (List.mem_cons_of_mem pr hx))
        (fun x hx => happ x (List.mem_cons_of_mem pr hx))
      rw [h2]
      exact ⟨_, _, rfl⟩
    · rw [if_neg ha]
      by_cases ht : titleOk title pr = false
      · rw [if_pos ht]
        obtain ⟨tr2, q2, h2⟩ := ih p (fun x hx => hurl x (List.mem_cons_of_mem pr hx))
          (fun x hx => happ x (List.mem_cons_of_mem pr hx))
        rw [h2]
        exact ⟨_, _, rfl⟩
      · rw [if_neg ht]
        rw [happ pr (List.mem_cons_self pr rest), retryF_mergeAction]
        obtain ⟨tr2, q2, h2⟩ := ih (p + 1) (fun x hx => hurl x (List.mem_cons_of_mem pr hx))
          (fun x hx => happ x (List.mem_cons_of_mem pr hx))
        rw [h2]
        exact ⟨_, _, rfl⟩

/-- C2: for every candidate in the confirmed ready set reached by a
completed apply loop, an approve or merge request is issued if and only if
the candidate's author login equals the expected identity
case-insensitively and its title contains the configured substring
case-insensitively; a candidate failing a check is skipped with the
corresponding diagnostic and the run continues (completion of the loop).
The expected identity for configured author "dependabot" is
"dependabot[bot]". -/
theorem claim2_apply_revalidation :
    requiredLogin (resolveAuthor "dependabot") = "dependabot[bot]" ∧
    ∀ (env : RunEnv) (req title : String) (prs : List PR) (p : Nat)
      (tr : List Event) (q : Nat),
      (prs.map PR.id).Nodup →
      applyLoop env req title prs p = (tr, .ok q) →
      ∀ pr, pr ∈ prs →
        ((Event.approveReq pr.id ∈ tr ∨ Event.mergeReq pr.id ∈ tr) ↔
          (authorOk req pr = true ∧ titleOk title pr = true)) ∧
        (authorOk req pr = false → Event.skipAuthor pr.id ∈ tr) ∧
        (authorOk req pr = true → titleOk title pr = false →
          Event.skipTitle pr.id ∈ tr) := by
  refine ⟨rfl, ?_⟩
  intro env req title prs p tr q hnodup h pr hpr
  obtain ⟨htr, hq⟩ := applyLoop_ok env req title prs p tr q h
  have hmemEvents : ∀ ev : Event, ev ∈ tr ↔ ∃ x ∈ prs, ev ∈ prEvents req title x := by
    intro ev
    rw [htr, List.mem_flatten]
    constructor
    · rintro ⟨s, hs, hev⟩
      rw [List.mem_map] at hs
      obtain ⟨x, hx, hxs⟩ := hs
      exact ⟨x, hx, hxs ▸ hev⟩
    · rintro ⟨x, hx, hev⟩
      exact ⟨prEvents req title x, List.mem_map_of_mem _ hx, hev⟩
  refine ⟨?_, ?_, ?_⟩
  · constructor
    · intro hin
      have hin' : Event.approveReq pr.id ∈ (applyLoop env req title prs p).1 ∨
          Event.mergeReq pr.id ∈ (applyLoop env req title prs p).1 := by
        rw [h]
        exact hin
      obtain ⟨pr', hm, hid, haT, htT⟩ :=
        applyLoop_event_validated env req title prs p pr.id hin'
      have : pr' = pr := List.inj_on_of_nodup_map hnodup hm hpr hid
      rw [← this]
      exact ⟨haT, htT⟩
    · rintro ⟨haT, htT⟩
      have hev : Event.approveReq pr.id ∈ prEvents req title pr := by
        simp [prEvents, haT, htT]
      exact Or.inl ((hmemEvents _).mpr ⟨pr, hpr, hev⟩)
  · intro ha
    have hev : Event.skipAuthor pr.id ∈ prEvents req title pr := by
      simp [prEvents, ha]
    exact (hmemEvents _).mpr ⟨pr, hpr, hev⟩
  · intro haT ht
    have hev : Event.skipTitle pr.id ∈ prEvents req title pr := by
      simp [prEvents, haT, ht]
    exact (hmemEvents _).mpr ⟨pr, hpr, hev⟩

/-- Witness for C2 on a concrete apply run: one valid candidate (approved
and merged), one author mismatch, one title mismatch. -/
theorem claim2_witness :
    ((Event.approveReq 1 ∈ ([Event.approveReq 1, Event.mergeReq 1,
        Event.skipAuthor 2, Event.skipTitle 3] : List Event) ∨
      Event.mergeReq 1 ∈ ([Event.approveReq 1, Event.mergeReq 1,
        Event.skipAuthor 2, Event.skipTitle 3] : List Event)) ↔
      (authorOk "dependabot[bot]" prGood = true ∧
       titleOk "bump lodash" prGood = true)) := by
  exact (claim2_apply_revalidation.2 envOk "dependabot[bot]" "bump lodash"
    [prGood, prBadAuthor, prBadTitle] 0
    [Event.approveReq 1, Event.mergeReq 1, Event.skipAuthor 2, Event.skipTitle 3] 1
    (by decide) (by decide) prGood (by decide)).1

/-- C3 counterexample: in the claim's own scenario — five ready
candidates, the merge request for one of them failing — the run reports
`processed = 5`, not `processed = 4`: the merge's internal catch swallows
the failure and `processed` is incremented regardless. -/
theorem claim3_counterexample :
    (runM envScenario "acme" "bump lodash" "dependabot" [] false).2 =
      RunResult.ok 5 5 ∧
    ¬ ((runM envScenario "acme" "bump lodash" "dependabot" [] false).2 =
      RunResult.ok 4 5) := by
  refine ⟨by decide, by decide⟩

/-- C3 amended: a merge failure is non-fatal and isolated — it is caught
inside the merge action on its first attempt (so the retry wrapper never
observes a failure and never re-attempts), the run continues with the
remaining candidates — but `processed` is still incremented for the
candidate whose merge failed: a completed apply loop counts every
candidate passing both safety checks, regardless of merge outcomes, and
the claim's five-candidate scenario ends with `processed = 5, total = 5`. -/
theorem claim3_merge_failure_isolated :
    (∀ o : Except JsError Unit, mergeAction o = .ok ()) ∧
    (∀ g : Nat → Except JsError Unit, retryF (fun i => mergeAction (g i)) = .ok ()) ∧
    (∀ (env : RunEnv) (req title : String) (prs : List PR) (p : Nat)
      (tr : List Event) (q : Nat),
      applyLoop env req title prs p = (tr, .ok q) →
      q = p + prs.countP (fun pr => authorOk req pr && titleOk title pr)) ∧
    (runM envScenario "acme" "bump lodash" "dependabot" [] false).2 =
      RunResult.ok 5 5 := by
  refine ⟨mergeAction_ok, retryF_mergeAction, ?_, by decide⟩
  intro env req title prs p tr q h
  exact (applyLoop_ok env req title prs p tr q h).2

/-- Witness for C3 amended: a single candidate whose merge always fails is
still counted as processed. -/
theorem claim3_witness :
    (1 : Nat) = 0 + ([prGood].countP (fun pr => authorOk "dependabot[bot]" pr &&
      titleOk "bump lodash" pr)) :=
  claim3_merge_failure_isolated.2.2.1 envMergeFail "dependabot[bot]" "bump lodash"
    [prGood] 0 [Event.approveReq 1, Event.mergeReq 1] 1 (by decide)

/-- A page-fetch failure aborts the pagination loop immediately: the
search request has no retry wrapper. -/
theorem listAllGoE_fetch_error (fetch : Nat → Except JsError SearchResponse)
    (fuel page : Nat) (m : List (Nat × PR)) (e : JsError) (hp : page < 10)
    (h : fetch page = .error e) :
    listAllGoE fetch (fuel + 1) page m = .error e := by
  simp only [listAllGoE, hp, if_true, h]

/-- C4 counterexample: a transient failure of the very first search
request — one the retry policy would absorb (second conjunct) — aborts the
whole run (first conjunct), because the paginated search request is issued
outside any retry wrapper. -/
theorem claim4_counterexample :
    runM envFlaky "acme" "bump lodash" "dependabot" [] false =
      ([], RunResult.err (JsError.hostError 503)) ∧
    retryF onceFail = .ok 1 := by
  refine ⟨by decide, by decide⟩

/-- C4 amended: the retry policy makes at most 3 total attempts with the
third outcome propagating on exhaustion; the PR detail and check-run
fetches are wrapped (jointly, via `getCheckStatus`) in this policy inside
the discovery loop, whose exhaustion aborts the run and never leaves a PR
eligible; the paginated search request, by contrast, is issued without
retry and its failure propagates immediately, also aborting the run. -/
theorem claim4_retry_policy :
    (∀ (α : Type) (f : Nat → Except JsError α) (a : α),
      f 0 = .ok a → retryF f = .ok a) ∧
    (∀ (α : Type) (f : Nat → Except JsError α) (e0 : JsError) (a : α),
      f 0 = .error e0 → f 1 = .ok a → retryF f = .ok a) ∧
    (∀ (α : Type) (f : Nat → Except JsError α) (e0 e1 : JsError),
      f 0 = .error e0 → f 1 = .error e1 → retryF f = f 2) ∧
    (∀ (env : RunEnv) (ig : Bool) (pr : PR) (rest : List PR) (e : JsError),
      (extractUrlParts pr.url).isSome = true → statusOf env pr = .error e →
      evalLoop env ig (pr :: rest) = .error e) ∧
    (∀ (env : RunEnv) (ig : Bool) (prs tm : List PR),
      evalLoop env ig prs = .ok tm → ∀ pr ∈ prs, ∃ s, statusOf env pr = .ok s) ∧
    (∀ (fetch : Nat → Except JsError SearchResponse) (e : JsError),
      fetch 1 = .error e → listAllE fetch = .error e) := by
  refine ⟨fun α f a h => retryF_first_ok f a h,
    fun α f e0 a h0 h1 => retryF_second_ok f e0 a h0 h1,
    fun α f e0 e1 h0 h1 => retryF_third f e0 e1 h0 h1,
    fun env ig pr rest e hu hs => evalLoop_head_status_error env ig pr rest e hu hs,
    fun env ig prs tm h pr hpr => ((evalLoop_ok_status env ig prs tm h) pr hpr).2,
    ?_⟩
  intro fetch e h
  unfold listAllE
  rw [show (9 : Nat) = 8 + 1 from rfl,
    listAllGoE_fetch_error fetch 8 1 [] e (by omega) h]

/-- Witness for C4 amended: exhaustion propagates the third attempt's
error, and a failing first search page aborts discovery. -/
theorem claim4_witness :
    retryF alwaysFail = alwaysFail 2 ∧
    listAllE (envFlaky.search "q") = .error (JsError.hostError 503) :=
  ⟨claim4_retry_policy.2.2.1 Nat alwaysFail (JsError.hostError 500)
      (JsError.hostError 500) rfl rfl,
   claim4_retry_policy.2.2.2.2.2 (envFlaky.search "q") (JsError.hostError 503)
      (by decide)⟩

/-- C6: with a non-empty ready set the run blocks on the confirmation
gate: an undefined input, any token other than y/n (case-insensitively),
and a negative answer all end the run with `process.exit(1)` — a non-zero
exit — before any apply-phase action, with an empty action trace; and no
approve or merge action is ever taken in any run without an explicit
affirmative input (lower-cased `"y"`). -/
theorem claim6_confirmation_gate :
    (∀ (env : RunEnv) (orgs title author : String) (repos : List String)
      (ig : Bool) (prs tm : List PR),
      listAllE (env.search (constructQuery (splitComma orgs) title
        (resolveAuthor author) repos)) = .ok prs →
      evalLoop env ig prs = .ok tm →
      0 < tm.length →
      ((env.confirmInput = none →
          runM env orgs title author repos ig = ([], RunResult.exit 1)) ∧
       (∀ s, env.confirmInput = some s → toLowerS s ≠ "n" → toLowerS s ≠ "y" →
          runM env orgs title author repos ig = ([], RunResult.exit 1)) ∧
       (∀ s, env.confirmInput = some s → toLowerS s = "n" →
          runM env orgs title author repos ig = ([], RunResult.exit 1)))) ∧
    (∀ (env : RunEnv) (orgs title author : String) (repos : List String)
      (ig : Bool),
      (runM env orgs title author repos ig).1 ≠ [] →
      ∃ s, env.confirmInput = some s ∧ toLowerS s = "y") := by
  constructor
  · intro env orgs title author repos ig prs tm hlist heval htm
    have hrun : ∀ code, confirmGate env.confirmInput = some code →
        runM env orgs title author repos ig = ([], RunResult.exit code) := by
      intro code hc
      simp only [runM]
      rw [hlist]
      simp only
      rw [heval]
      simp only
      rw [if_pos htm, hc]
    refine ⟨?_, ?_, ?_⟩
    · intro hin
      exact hrun 1 (by rw [hin]; rfl)
    · intro s hin hn hy
      apply hrun 1
      rw [hin]
      simp only [confirmGate]
      have hb : (toLowerS s != "n" && toLowerS s != "y") = true := by
        simp [bne, hn, hy]
      rw [if_pos hb]
    · intro s hin hn
      apply hrun 1
      rw [hin]
      simp only [confirmGate]
      by_cases hb : (toLowerS s != "n" && toLowerS s != "y") = true
      · rw [if_pos hb]
      · rw [if_neg hb, if_pos (by simp [hn])]
  · intro env orgs title author repos ig hne
    simp only [runM] at hne
    cases hlist : listAllE (env.search (constructQuery (splitComma orgs) title
        (resolveAuthor author) repos)) with
    | error e => rw [hlist] at hne; simp at hne
    | ok prs =>
      rw [hlist] at hne
      simp only at hne
      cases heval : evalLoop env ig prs with
      | error e => rw [heval] at hne; simp at hne
      | ok tm =>
        rw [heval] at hne
        simp only at hne
        by_cases htm : 0 < tm.length
        · rw [if_pos htm] at hne
          cases hc : confirmGate env.confirmInput with
          | some code => rw [hc] at hne; simp at hne
          | none => exact (confirmGate_none_iff env.confirmInput).mp hc
        · rw [if_neg htm] at hne
          have htm0 : tm = [] := by
            cases tm with
            | nil => rfl
            | cons a l => simp at htm
          rw [htm0] at hne
          simp [finishApply, applyLoop] at hne

/-- Witness for C6: input `"x"` with five ready candidates exits with code
1 and an empty action trace. -/
theorem claim6_witness :
    runM (envWith (some "x")) "acme" "bump lodash" "dependabot" [] false =
      ([], RunResult.exit 1) :=
  ((claim6_confirmation_gate.1 (envWith (some "x")) "acme" "bump lodash"
    "dependabot" [] false fivePage.items fivePage.items (by decide) (by decide)
    (by decide)).2.1) "x" rfl (by decide) (by decide)

/-- C8: a successful discovery loop appends a candidate to the ready set
exactly when its settled status is `success` or the ignore-checks override
is active and the status is not `success` (the `readyB` guard); with the
override active the ready set is the whole candidate list; and the
apply-phase re-validation still governs every candidate in the ready set,
override-included ones too: action events exist only for re-validated
candidates. -/
theorem claim8_ready_set (env : RunEnv) (ig : Bool) :
    (∀ prs tm, evalLoop env ig prs = .ok tm → tm = prs.filter (readyB env ig)) ∧
    (∀ prs tm, evalLoop env true prs = .ok tm → tm = prs) ∧
    (∀ (req title : String) (prs : List PR) (p k : Nat),
      (Event.approveReq k ∈ (applyLoop env req title prs p).1 ∨
       Event.mergeReq k ∈ (applyLoop env req title prs p).1) →
      ∃ pr, pr ∈ prs ∧ pr.id = k ∧ authorOk req pr = true ∧
        titleOk title pr = true) := by
  refine ⟨evalLoop_ok_filter env ig, ?_, applyLoop_event_validated env⟩
  intro prs tm h
  rw [evalLoop_ok_filter env true prs tm h]
  apply List.filter_eq_self.mpr
  intro pr hpr
  obtain ⟨_, s, hs⟩ := evalLoop_ok_status env true prs tm h pr hpr
  unfold readyB
  rw [hs]
  by_cases hb : (s == "success") = true
  · simp [hb]
  · simp [hb, bne]

/-- Witness for C8: with failing checks and the override active, the one
candidate is still in the ready set (it survives the ready filter). -/
theorem claim8_witness :
    ([samplePR 1] : List PR) = [samplePR 1].filter (readyB envChecksFail true) :=
  (claim8_ready_set envChecksFail true).1 [samplePR 1] [samplePR 1] (by decide)

/-- The fallible pagination loop preserves the deduplication invariant. -/
theorem listAllGoE_goodMap (fetch : Nat → Except JsError SearchResponse) :
    ∀ (fuel page : Nat) (m : List (Nat × PR)) (r : List (Nat × PR) × Nat),
      goodMap m → listAllGoE fetch fuel page m = .ok r → goodMap r.1 := by
  intro fuel
  induction fuel with
  | zero =>
    intro page m r hg h
    simp only [listAllGoE] at h
    simp at h
    rw [← h]
    exact hg
  | succ fuel ih =>
    intro page m r hg h
    simp only [listAllGoE] at h
    by_cases hp : page < 10
    · rw [if_pos hp] at h
      cases hf : fetch page with
      | error e => rw [hf] at h; simp at h
      | ok resp =>
        rw [hf] at h
        simp only at h
        have hg2 : goodMap (insertAll m resp.items) :=
          insertAll_goodMap resp.items m hg
        by_cases hc : resp.total_count ≤ (insertAll m resp.items).length
        · rw [if_pos hc] at h
          simp at h
          rw [← h]
          exact hg2
        · rw [if_neg hc] at h
          cases hrec : listAllGoE fetch fuel (page + 1) (insertAll m resp.items) with
          | error e => rw [hrec] at h; simp at h
          | ok r2 =>
            rw [hrec] at h
            simp at h
            have hgood := ih (page + 1) (insertAll m resp.items) r2 hg2 hrec
            rw [← h]
            exact hgood
    · rw [if_neg hp] at h
      simp at h
      rw [← h]
      exact hg

/-- A successful `listAll` returns candidates with duplicate-free ids. -/
theorem listAllE_ids_nodup (fetch : Nat → Except JsError SearchResponse)
    (prs : List PR) (h : listAllE fetch = .ok prs) : (prs.map PR.id).Nodup := by
  unfold listAllE at h
  cases hgo : listAllGoE fetch 9 1 [] with
  | error e => rw [hgo] at h; simp at h
  | ok r =>
    rw [hgo] at h
    simp at h
    have hg : goodMap r.1 :=
      listAllGoE_goodMap fetch 9 1 [] r ⟨by simp, by simp⟩ hgo
    rw [← h, List.map_map]
    have hmaps : r.1.map (PR.id ∘ Prod.snd) = r.1.map Prod.fst := by
      apply List.map_congr_left
      intro p hp
      exact hg.2 p hp
    rw [hmaps]
    exact hg.1

/-- A list with duplicate-free ids has at most one element of any id. -/
theorem countP_id_le_one (prs : List PR) (k : Nat)
    (h : (prs.map PR.id).Nodup) : prs.countP (fun pr => pr.id == k) ≤ 1 := by
  induction prs with
  | nil => simp
  | cons pr rest ih =>
    simp only [List.map_cons, List.nodup_cons] at h
    obtain ⟨hnotin, hnd⟩ := h
    rw [List.countP_cons]
    by_cases hk : (pr.id == k) = true
    · have hkeq : pr.id = k := by simpa using hk
      have hzero : rest.countP (fun x => x.id == k) = 0 := by
        apply List.countP_eq_zero.mpr
        intro x hx hxk
        have hxk' : x.id = k := by simpa using hxk
        apply hnotin
        rw [← hkeq] at hxk'
        rw [← hxk']
        exact List.mem_map_of_mem PR.id hx
      simp [hk, hzero]
    · simp only [hk, if_false]
      calc rest.countP (fun x => x.id == k) + 0 =
          rest.countP (fun x => x.id == k) := by omega
        _ ≤ 1 := ih hnd

/-- C9: the success push and the override push are mutually exclusive —
each discovery step contributes the candidate at most once — the ready set
is a sublist of the discovered candidates, and in any run at most one
approve request is ever issued per candidate id. -/
theorem claim9_at_most_once :
    (∀ (s : String) (ig : Bool) (pr : PR),
      pushPair s ig pr = [] ∨ pushPair s ig pr = [pr]) ∧
    (∀ (env : RunEnv) (ig : Bool) (prs tm : List PR),
      evalLoop env ig prs = .ok tm → tm.Sublist prs) ∧
    (∀ (env : RunEnv) (orgs title author : String) (repos : List String)
      (ig : Bool) (k : Nat),
      ((runM env orgs title author repos ig).1.countP (approveFor k)) ≤ 1) := by
  refine ⟨?_, ?_, ?_⟩
  · intro s ig pr
    rw [pushPair_eq]
    by_cases hb : ((s == "success") || (ig && s != "success")) = true
    · rw [if_pos hb]; exact Or.inr rfl
    · rw [if_neg hb]; exact Or.inl rfl
  · intro env ig prs tm h
    rw [evalLoop_ok_filter env ig prs tm h]
    exact List.filter_sublist prs
  · intro env orgs title author repos ig k
    simp only [runM]
    cases hlist : listAllE (env.search (constructQuery (splitComma orgs) title
        (resolveAuthor author) repos)) with
    | error e => simp
    | ok prs =>
      have hnodup : (prs.map PR.id).Nodup := listAllE_ids_nodup _ prs hlist
      simp only
      cases heval : evalLoop env ig prs with
      | error e => simp
      | ok tm =>
        simp only
        have hsub : tm.Sublist prs := by
          rw [evalLoop_ok_filter env ig prs tm heval]
          exact List.filter_sublist prs
        have hcount : tm.countP (fun pr => pr.id == k) ≤ 1 :=
          le_trans (hsub.countP_le _) (countP_id_le_one prs k hnodup)
        have hfin : ∀ (author1 : String) (total : Nat),
            ((finishApply env author1 title tm total).1.countP (approveFor k)) ≤ 1 := by
          intro author1 total
          unfold finishApply
          have happly := applyLoop_approve_count env (requiredLogin author1) title tm 0 k
          cases hap : applyLoop env (requiredLogin author1) title tm 0 with
          | mk tr res =>
            rw [hap] at happly
            cases res with
            | ok q => exact le_trans happly hcount
            | error e => exact le_trans happly hcount
        by_cases htm : 0 < tm.length
        · rw [if_pos htm]
          cases hc : confirmGate env.confirmInput with
          | some code => simp
          | none => exact hfin _ _
        · rw [if_neg htm]
          exact hfin _ _

/-- Witness for C9: the ready set of a concrete successful evaluation is a
sublist of its candidates, and the five-candidate scenario issues at most
one approve request for id 3. -/
theorem claim9_witness :
    List.Sublist ([samplePR 1] : List PR) [samplePR 1] ∧
    ((runM envScenario "acme" "bump lodash" "dependabot" [] false).1.countP
      (approveFor 3)) ≤ 1 :=
  ⟨claim9_at_most_once.2.1 envOk false [samplePR 1] [samplePR 1] (by decide),
   claim9_at_most_once.2.2 envScenario "acme" "bump lodash" "dependabot" [] false 3⟩

/-- String concatenation concatenates the underlying character lists. -/
theorem stringData_append (s t : String) : (s ++ t).data = s.data ++ t.data := by
  cases s; cases t; rfl

/-- Matching a literal against itself followed by a rest succeeds and
returns the rest. -/
theorem matchLit_self_append : ∀ (lit rest : List Char),
    matchLit lit (lit ++ rest) = some rest
  | [], rest => rfl
  | c :: cs, rest => by
    simp [matchLit, matchLit_self_append cs rest]

/-- If a literal pattern starting with `c` matches, the input starts with
`c`. -/
theorem matchLit_cons_inv (c : Char) (cs s r : List Char)
    (h : matchLit (c :: cs) s = some r) : ∃ s', s = c :: s' := by
  cases s with
  | nil => simp [matchLit] at h
  | cons d ds =>
    by_cases hd : (c == d) = true
    · have hcd : c = d := by simpa using hd
      exact ⟨ds, by rw [hcd]⟩
    · simp [matchLit, hd] at h

/-- `takeWhile` over a slash-free segment followed by a slash returns the
segment. -/
theorem seg_take (as bs : List Char) (h : ∀ c ∈ as, c ≠ '/') :
    (as ++ '/' :: bs).takeWhile (fun c => c != '/') = as := by
  induction as with
  | nil => simp
  | cons a as ih =>
    have ha : (a != '/') = true := by
      have := h a (List.mem_cons_self a as)
      simpa [bne] using this
    simp only [List.cons_append, List.takeWhile_cons, ha, if_true]
    rw [ih (fun c hc => h c (List.mem_cons_of_mem a hc))]

/-- `dropWhile` over a slash-free segment followed by a slash stops at the
slash. -/
theorem seg_drop (as bs : List Char) (h : ∀ c ∈ as, c ≠ '/') :
    (as ++ '/' :: bs).dropWhile (fun c => c != '/') = '/' :: bs := by
  induction as with
  | nil => simp
  | cons a as ih =>
    have ha : (a != '/') = true := by
      have := h a (List.mem_cons_self a as)
      simpa [bne] using this
    simp only [List.cons_append, List.dropWhile_cons, ha, if_true]
    exact ih (fun c hc => h c (List.mem_cons_of_mem a hc))

/-- The anchored full-regex match succeeds on any input of the shape
`/repos/{org}/{repo}/issues/{id}…` with non-empty slash-free segments. -/
theorem tryFull_shape (org repo idv rest : List Char)
    (ho : org ≠ []) (ho2 : ∀ c ∈ org, c ≠ '/')
    (hr : repo ≠ []) (hr2 : ∀ c ∈ repo, c ≠ '/')
    (hi : idv ≠ []) (hi2 : ∀ c ∈ idv, c ≠ '/') :
    (tryFull ("/repos/".data ++ (org ++ ('/' :: (repo ++
      ("/issues/".data ++ (idv ++ rest))))))).isSome = true := by
  have hoe : org.isEmpty = false := by
    cases org with
    | nil => exact absurd rfl ho
    | cons a l => rfl
  have hre : repo.isEmpty = false := by
    cases repo with
    | nil => exact absurd rfl hr
    | cons a l => rfl
  have hsp : ("/issues/".data : List Char) ++ (idv ++ rest) =
      '/' :: ("issues/".data ++ (idv ++ rest)) := rfl
  unfold tryFull
  rw [matchLit_self_append, hsp]
  simp only [seg_take org (repo ++ ('/' :: ("issues/".data ++ (idv ++ rest)))) ho2,
    seg_drop org (repo ++ ('/' :: ("issues/".data ++ (idv ++ rest)))) ho2,
    hoe, Bool.false_eq_true, if_false]
  simp only [seg_take repo ("issues/".data ++ (idv ++ rest)) hr2,
    seg_drop repo ("issues/".data ++ (idv ++ rest)) hr2,
    hre, Bool.false_eq_true, if_false]
  rw [← hsp, matchLit_self_append]
  simp only
  cases idv with
  | nil => exact absurd rfl hi
  | cons c idv2 =>
    have hc : (c != '/') = true := by
      have := hi2 c (List.mem_cons_self c idv2)
      simpa [bne] using this
    simp [List.cons_append, List.takeWhile_cons, hc]

/-- An anchored match at the current position makes the search succeed. -/
theorem searchFull_of_tryFull : ∀ (s : List Char),
    (tryFull s).isSome = true → (searchFull s).isSome = true
  | [], h => by simpa [searchFull] using h
  | c :: rest, h => by
    simp only [searchFull]
    cases ht : tryFull (c :: rest) with
    | some r => simp
    | none => rw [ht] at h; simp at h

/-- A successful search on a suffix makes the search on the whole input
succeed (it finds a match at this or an earlier position). -/
theorem searchFull_suffix : ∀ (xs ys : List Char),
    (searchFull ys).isSome = true → (searchFull (xs ++ ys)).isSome = true
  | [], ys, h => h
  | x :: xs, ys, h => by
    simp only [List.cons_append, searchFull]
    cases ht : tryFull (x :: (xs ++ ys)) with
    | some r => simp
    | none => simpa using searchFull_suffix xs ys h

/-- Any position where the full issues regex matches also matches the
shorter apply-loop regex. -/
theorem tryShort_of_tryFull (s : List Char) (h : (tryFull s).isSome = true) :
    (tryShort s).isSome = true := by
  unfold tryFull at h
  unfold tryShort
  cases hm : matchLit "/repos/".data s with
  | none => rw [hm] at h; simp at h
  | some r1 =>
    rw [hm] at h
    simp only at h ⊢
    by_cases he : (r1.takeWhile (fun c => c != '/')).isEmpty = true
    · rw [if_pos he] at h; simp at h
    · rw [if_neg he] at h
      rw [if_neg he]
      cases hd : r1.dropWhile (fun c => c != '/') with
      | nil => rw [hd] at h; simp at h
      | cons d r3 =>
        rw [hd] at h
        simp only at h ⊢
        by_cases hds : d = '/'
        · rw [if_pos hds] at h
          rw [if_pos hds]
          by_cases he2 : (r3.takeWhile (fun c => c != '/')).isEmpty = true
          · rw [if_pos he2] at h; simp at h
          · rw [if_neg he2] at h
            rw [if_neg he2]
            cases hm2 : matchLit "/issues/".data (r3.dropWhile (fun c => c != '/')) with
            | none => rw [hm2] at h; simp at h
            | some r5 =>
              obtain ⟨s2, hs2⟩ :=
                matchLit_cons_inv '/' "issues/".data
                  (r3.dropWhile (fun c => c != '/')) r5 hm2
              rw [hs2]
              simp
        · rw [if_neg hds] at h
          simp at h

/-- A successful full-regex search implies a successful short-regex
search. -/
theorem searchShort_of_searchFull : ∀ (s : List Char),
    (searchFull s).isSome = true → (searchShort s).isSome = true
  | [], h => by
    simp only [searchFull] at h
    simp only [searchShort]
    exact tryShort_of_tryFull [] h
  | c :: rest, h => by
    simp only [searchFull] at h
    simp only [searchShort]
    cases ht : tryFull (c :: rest) with
    | some r =>
      have hts := tryShort_of_tryFull (c :: rest) (by rw [ht]; rfl)
      cases hts2 : tryShort (c :: rest) with
      | some r2 => simp
      | none => rw [hts2] at hts; simp at hts
    | none =>
      rw [ht] at h
      simp only at h
      have hrec := searchShort_of_searchFull rest h
      cases hts2 : tryShort (c :: rest) with
      | some r2 => simp
      | none => simpa using hrec

/-- C10: the status-evaluation and apply phases presuppose candidate URLs
containing a `/repos/{org}/{repo}/issues/{id}` segment: any URL of that
shape matches `extractUrlParts` (so the throwing branch is unreachable
under the precondition, and such URLs also match the apply loop's shorter
regex); every candidate surviving a successful discovery loop has a
matching URL; and a candidate with a non-matching URL throws a `TypeError`
that aborts the run as soon as it is reached. -/
theorem claim10_url_precondition :
    (∀ pre org repo idv post : String,
      org.data ≠ [] → repo.data ≠ [] → idv.data ≠ [] →
      (∀ c ∈ org.data, c ≠ '/') → (∀ c ∈ repo.data, c ≠ '/') →
      (∀ c ∈ idv.data, c ≠ '/') →
      (extractUrlParts (pre ++ "/repos/" ++ org ++ "/" ++ repo ++ "/issues/" ++
        idv ++ post)).isSome = true) ∧
    (∀ (env : RunEnv) (ig : Bool) (prs tm : List PR),
      evalLoop env ig prs = .ok tm →
      ∀ pr ∈ prs, (extractUrlParts pr.url).isSome = true) ∧
    (∀ (env : RunEnv) (ig : Bool) (pr : PR) (rest : List PR),
      extractUrlParts pr.url = none →
      evalLoop env ig (pr :: rest) = .error JsError.typeError) ∧
    (∀ url : String, (extractUrlParts url).isSome = true →
      (extractOrgRepo url).isSome = true) := by
  refine ⟨?_, ?_, ?_, ?_⟩
  · intro pre org repo idv post ho hr hi ho2 hr2 hi2
    unfold extractUrlParts
    have hdata : (pre ++ "/repos/" ++ org ++ "/" ++ repo ++ "/issues/" ++
        idv ++ post).data =
        pre.data ++ ("/repos/".data ++ (org.data ++ ('/' :: (repo.data ++
          ("/issues/".data ++ (idv.data ++ post.data)))))) := by
      simp only [stringData_append, List.append_assoc,
        show ("/" : String).data = ['/'] from rfl, List.singleton_append,
        List.cons_append, List.nil_append]
    rw [hdata]
    exact searchFull_suffix pre.data _
      (searchFull_of_tryFull _
        (tryFull_shape org.data repo.data idv.data post.data ho ho2 hr hr2 hi hi2))
  · intro env ig prs tm h pr hpr
    exact (evalLoop_ok_status env ig prs tm h pr hpr).1
  · exact evalLoop_head_url_none
  · intro url h
    unfold extractUrlParts at h
    unfold extractOrgRepo
    exact searchShort_of_searchFull url.data h

/-- Witness for C10 on a concrete canonical API URL. -/
theorem claim10_witness :
    (extractUrlParts ("https://api.github.com" ++ "/repos/" ++ "acme" ++ "/" ++
      "web" ++ "/issues/" ++ "42" ++ "")).isSome = true ∧
    (extractOrgRepo ("https://api.github.com" ++ "/repos/" ++ "acme" ++ "/" ++
      "web" ++ "/issues/" ++ "42" ++ "")).isSome = true := by
  have h1 := claim10_url_precondition.1 "https://api.github.com" "acme" "web" "42" ""
    (by decide) (by decide) (by decide) (by decide) (by decide) (by decide)
  exact ⟨h1, claim10_url_precondition.2.2.2 _ h1⟩

end MassMerge
